import Mathlib

/-
Verification of scripts/mdb_to_sqlite_fts5.py (MDBToSQLiteConverter).

Shallow embedding conventions:
- Python strings are modelled as lists of characters (Str := List Char).
- The per-value cleaning done in the import loop of export_table is
  processValue; str.replace of a single character by the empty string is
  modelled as a filter, str.strip as dropping whitespace at both ends,
  str.upper as a character-wise upper-casing.
- The external world (mdb-schema output, mdb-export CSV, sqlite insert
  success) is an oracle packaged in TableInput; the SQLite connection is a
  trace of statements (Event) interpreted by a committed/pending
  transaction state (TxState), commit publishing the pending state and
  rollback discarding it, exactly as the sqlite3 connection used by the
  script behaves.
-/

namespace SqliteSearch

abbrev Str := List Char

def nullChar : Char := Char.ofNat 0

def quoteChar : Char := Char.ofNat 34

def aposChar : Char := Char.ofNat 39

/-- Character-wise model of str.upper. -/
def upperL (s : Str) : Str := s.map Char.toUpper

/-- Model of str.strip: remove whitespace from both ends. -/
def stripL (s : Str) : Str :=
  ((s.dropWhile Char.isWhitespace).reverse.dropWhile Char.isWhitespace).reverse

/-- The per-value cleaning in the import loop of export_table:
if val == the empty string or val.upper() == NULL the value becomes None,
otherwise null bytes are removed, the result stripped, and an empty
result becomes None. -/
def processValue (val : Str) : Option Str :=
  if val = [] ∨ upperL val = ("NULL".toList) then none
  else if stripL (val.filter (fun c => !(c == nullChar))) = [] then none
  else some (stripL (val.filter (fun c => !(c == nullChar))))

example : processValue ("  foo  ".toList) = some ("foo".toList) := by decide
example : processValue ("null".toList) = none := by decide
example : processValue (" NULL ".toList) = some ("NULL".toList) := by decide
example : processValue ("   ".toList) = none := by decide

/-- The five type names accepted unchanged by export_table; any other
declared type is replaced by TEXT. -/
def allowedTypes : List Str :=
  ["INTEGER".toList, "TEXT".toList, "REAL".toList, "BLOB".toList, "NUMERIC".toList]

/-- safe_name: remove double quotes and apostrophes, then strip. -/
def sanitizeName (col_name : Str) : Str :=
  stripL (col_name.filter (fun c => !(c == quoteChar) && !(c == aposChar)))

/-- safe_type: keep the declared type when it is in the allowed list,
otherwise TEXT. -/
def sanitizeType (col_type : Str) : Str :=
  if col_type ∈ allowedTypes then col_type else ("TEXT".toList)

/-- The sanitized_schema loop of export_table. -/
def sanitizeSchema (schema : List (Str × Str)) : List (Str × Str) :=
  schema.map (fun p => (sanitizeName p.1, sanitizeType p.2))

/-- Bool test for: pat occurs as a contiguous substring of s. -/
def containsSub (pat s : Str) : Bool :=
  (List.tails s).any (fun t => List.isPrefixOf pat t)

/-- The text-likeness test of _create_fts5_table: the upper-cased declared
type contains TEXT, VARCHAR or CHAR. -/
def textLike (col_type : Str) : Bool :=
  containsSub ("TEXT".toList) (upperL col_type)
    || containsSub ("VARCHAR".toList) (upperL col_type)
    || containsSub ("CHAR".toList) (upperL col_type)

/-- Under the all policy, the columns selected for the FTS5 index. -/
def resolveTextColumns (schema : List (Str × Str)) : List Str :=
  (schema.filter (fun col => textLike col.2)).map (fun col => col.1)

example :
    resolveTextColumns
      [("id".toList, "INTEGER".toList),
       ("name".toList, "TEXT".toList),
       ("bio".toList, "VARCHAR".toList)] = ["name".toList, "bio".toList] := by decide

/-- Truthiness of the row limit check: a None or zero limit never stops
the import; otherwise the import stops once row_count reaches the limit. -/
def capReached (row_limit : Option Nat) (row_count : Nat) : Bool :=
  match row_limit with
  | none => false
  | some l => decide (l ≠ 0) && decide (row_count ≥ l)

/-- Pad a short CSV row with empty strings or truncate a long one so that
its length matches the schema length. -/
def padTruncate (schemaLen : Nat) (row : List Str) : List Str :=
  if row.length < schemaLen then row ++ List.replicate (schemaLen - row.length) []
  else if row.length > schemaLen then row.take schemaLen
  else row

/-- One prepared row: pad or truncate, then clean every value. -/
def processRow (schemaLen : Nat) (row : List Str) : List (Option Str) :=
  (padTruncate schemaLen row).map processValue

/-- Outcome of the CSV import loop of export_table. -/
structure ImportResult where
  table : List (List (Option Str))
  rowCount : Nat
  errorCount : Nat
  droppedCount : Nat
deriving DecidableEq, Repr

/-- The CSV import loop of export_table. rowOk is the oracle telling
whether the sqlite INSERT of the data row at a given index succeeds; a
failed row only increments error_count. When the row cap is active and
reached, the loop breaks and the remaining rows are dropped. -/
def importRows (row_limit : Option Nat) (schemaLen : Nat) (rowOk : Nat → Bool) :
    List (List Str) → Nat → Nat → Nat → List (List (Option Str)) → ImportResult
  | [], _, rc, ec, acc => ⟨acc.reverse, rc, ec, 0⟩
  | r :: rest, idx, rc, ec, acc =>
    if capReached row_limit rc then ⟨acc.reverse, rc, ec, (r :: rest).length⟩
    else if rowOk idx then
      importRows row_limit schemaLen rowOk rest (idx + 1) (rc + 1) ec
        (processRow schemaLen r :: acc)
    else
      importRows row_limit schemaLen rowOk rest (idx + 1) rc (ec + 1) acc

example :
    (importRows (some 5) 1 (fun _ => true)
      (List.replicate 10 ["x".toList]) 0 0 0 []).rowCount = 5 := by decide
example :
    (importRows (some 5) 1 (fun _ => true)
      (List.replicate 10 ["x".toList]) 0 0 0 []).droppedCount = 5 := by decide

/-- One SQL statement executed by the script against the destination
store. DROP TABLE IF EXISTS is dropTable (it removes a plain or virtual
table of that name); createFts is the CREATE VIRTUAL TABLE ... USING fts5
statement; rebuild is the external-content population directive. commit
and rollback are the transaction boundary calls on the connection. -/
inductive Event
  | dropTable (name : Str)
  | createTable (name : Str) (schema : List (Str × Str))
  | insert (name : Str) (row : List (Option Str))
  | createFts (name : Str) (cols : List Str)
  | rebuild (name : Str)
  | commit
  | rollback
deriving DecidableEq, Repr

/-- A named object of the destination sqlite file: a plain table with its
schema and rows, or an FTS5 virtual table with its indexed columns and a
flag telling whether the rebuild directive has populated it. -/
inductive Entry
  | base (schema : List (Str × Str)) (rows : List (List (Option Str)))
  | fts (cols : List Str) (populated : Bool)
deriving DecidableEq, Repr

/-- The destination store: an association list from object name to entry
(a single namespace, as in sqlite). -/
abbrev DB := List (Str × Entry)

def dropT (db : DB) (n : Str) : DB := db.filter (fun p => decide (p.1 ≠ n))

def setT (db : DB) (n : Str) (e : Entry) : DB := dropT db n ++ [(n, e)]

def getT (db : DB) (n : Str) : Option Entry :=
  (db.find? (fun p => decide (p.1 = n))).map Prod.snd

/-- Effect of one statement on the uncommitted state. -/
def applyEvent (db : DB) : Event → DB
  | Event.dropTable n => dropT db n
  | Event.createTable n sch => setT db n (Entry.base sch [])
  | Event.insert n row =>
    match getT db n with
    | some (Entry.base sch rows) => setT db n (Entry.base sch (rows ++ [row]))
    | _ => db
  | Event.createFts n cols => setT db n (Entry.fts cols false)
  | Event.rebuild n =>
    match getT db n with
    | some (Entry.fts cols _) => setT db n (Entry.fts cols true)
    | _ => db
  | Event.commit => db
  | Event.rollback => db

/-- Transaction state of the sqlite connection: the committed contents of
the file and the pending contents seen inside the open transaction. -/
structure TxState where
  committed : DB
  pending : DB
deriving DecidableEq, Repr

def stepTx (s : TxState) : Event → TxState
  | Event.commit => ⟨s.pending, s.pending⟩
  | Event.rollback => ⟨s.committed, s.committed⟩
  | e => ⟨s.committed, applyEvent s.pending e⟩

def runTrace (db : DB) (evs : List Event) : TxState :=
  evs.foldl stepTx ⟨db, db⟩

/-- Per-table report of export_table (and of convert when it catches an
exception raised out of export_table). -/
inductive Report
  | schemaFail
  | exportEmpty
  | loadFail
  | raisedCaught
  | success (rowCount errorCount : Nat)
deriving DecidableEq, Repr

/-- Everything the external world supplies for one table: the parsed
mdb-schema output (empty list when no CREATE TABLE could be parsed, and a
flag for the subprocess itself raising), the parsed CSV data rows from
mdb-export (none when the export produced no output), and oracles for the
success of the sqlite statements: per-row insert success, success of the
DROP and CREATE statement pair, success of the FTS5 statement sequence. -/
structure TableInput where
  name : Str
  schemaRaises : Bool
  rawSchema : List (Str × Str)
  csv : Option (List (List Str))
  rowOk : Nat → Bool
  createOk : Bool
  ftsOk : Bool

def ftsName (table_name : Str) : Str := table_name ++ ("_fts".toList)

/-- The text_columns variable of _create_fts5_table: text-like columns
under the all sentinel, the given list verbatim otherwise. -/
def resolveFtsColumns (schema : List (Str × Str)) (fts_columns : List Str) :
    List Str :=
  if fts_columns = ["all".toList] then resolveTextColumns schema else fts_columns

/-- _create_fts5_table as the statements it executes: resolve the column
set, do nothing but log a notice when the set is empty, otherwise drop
the previous index, create the external-content FTS5 table and issue the
rebuild directive. -/
def createFts5Events (table_name : Str) (schema : List (Str × Str))
    (fts_columns : List Str) : List Event :=
  if resolveFtsColumns schema fts_columns = [] then []
  else
    [Event.dropTable (ftsName table_name),
     Event.createFts (ftsName table_name) (resolveFtsColumns schema fts_columns),
     Event.rebuild (ftsName table_name)]

/-- export_table as the statement trace it sends to the connection plus
its report. Early returns (no schema, empty export) touch nothing. An
exception in the DROP and CREATE pair, or in the FTS5 sequence, leads to
the rollback path of the enclosing try. Otherwise the trace ends in a
single commit. -/
def exportTableEvents (row_limit : Option Nat) (ftsSel : Option (List Str))
    (i : TableInput) : List Event × Report :=
  if i.rawSchema = [] then ([], Report.schemaFail)
  else
    match i.csv with
    | none => ([], Report.exportEmpty)
    | some rows =>
      let sschema := sanitizeSchema i.rawSchema
      if i.createOk = false then ([Event.rollback], Report.loadFail)
      else
        let res := importRows row_limit sschema.length i.rowOk rows 0 0 0 []
        let setup := [Event.dropTable i.name, Event.createTable i.name sschema]
        let inserts := res.table.map (fun r => Event.insert i.name r)
        let doFts :=
          (match ftsSel with
           | none => false
           | some s => decide (s ≠ [])) && decide (res.rowCount > 0)
        if doFts then
          let ftsEvs := createFts5Events i.name sschema (ftsSel.getD [])
          if ftsEvs ≠ [] ∧ i.ftsOk = false then
            (setup ++ inserts ++ [Event.rollback], Report.loadFail)
          else
            (setup ++ inserts ++ ftsEvs ++ [Event.commit],
             Report.success res.rowCount res.errorCount)
        else
          (setup ++ inserts ++ [Event.commit],
           Report.success res.rowCount res.errorCount)

/-- export_table: run the statement trace against the store; the file
contents afterwards are the committed state. -/
def exportTableRun (row_limit : Option Nat) (ftsSel : Option (List Str))
    (db : DB) (i : TableInput) : DB × Report :=
  let er := exportTableEvents row_limit ftsSel i
  ((runTrace db er.1).committed, er.2)

/-- export_table as seen by convert: the mdb-schema subprocess is run with
check=True, so its failure raises out of export_table. -/
def exportTableExc (row_limit : Option Nat) (ftsSel : Option (List Str))
    (db : DB) (i : TableInput) : Except Unit (DB × Report) :=
  if i.schemaRaises then Except.error ()
  else Except.ok (exportTableRun row_limit ftsSel db i)

/-- The per-table loop of convert: each table is exported inside a try
that catches any exception and continues with the next table. -/
def convertTables (row_limit : Option Nat) (ftsSel : Option (List Str)) :
    DB → List TableInput → DB × List Report
  | db, [] => (db, [])
  | db, t :: rest =>
    let step :=
      match exportTableExc row_limit ftsSel db t with
      | Except.ok r => r
      | Except.error _ => (db, Report.raisedCaught)
    let r2 := convertTables row_limit ftsSel step.1 rest
    (r2.1, step.2 :: r2.2)

/-- main: a missing input file or a missing mdbtools binary raises in the
constructor and is caught at top level with exit code 1; list mode prints
and exits 0; otherwise convert runs to completion (it is a total function
here, reflecting that every per-table failure is caught inside it) and
the process exits 0 unless the final size report raises at top level. -/
def mainExit (inputExists mdbtoolsOk listMode : Bool) (row_limit : Option Nat)
    (ftsSel : Option (List Str)) (db : DB) (tables : List TableInput)
    (finalLogOk : Bool) : Nat :=
  if inputExists = false then 1
  else if mdbtoolsOk = false then 1
  else if listMode then 0
  else
    let _ := convertTables row_limit ftsSel db tables
    if finalLogOk then 0 else 1

/-- Concrete input used by several closed statements: one TEXT column,
ten identical data rows, every sqlite statement succeeding. -/
def capInput : TableInput :=
  { name := "t".toList
    schemaRaises := false
    rawSchema := [("name".toList, "TEXT".toList)]
    csv := some (List.replicate 10 ["x".toList])
    rowOk := fun _ => true
    createOk := true
    ftsOk := true }

/-- Loop invariant of the import loop: every data row is accounted for
exactly once as inserted, skipped with an error, or dropped by the cap;
and row_count counts exactly the inserted rows. -/
theorem importRows_accounting (row_limit : Option Nat) (schemaLen : Nat)
    (rowOk : Nat → Bool) (rows : List (List Str)) :
    ∀ (idx rc ec : Nat) (acc : List (List (Option Str))),
      ((importRows row_limit schemaLen rowOk rows idx rc ec acc).table.length
          + (importRows row_limit schemaLen rowOk rows idx rc ec acc).errorCount
          + (importRows row_limit schemaLen rowOk rows idx rc ec acc).droppedCount
        = acc.length + ec + rows.length)
      ∧ ((importRows row_limit schemaLen rowOk rows idx rc ec acc).rowCount
            + acc.length
        = rc + (importRows row_limit schemaLen rowOk rows idx rc ec acc).table.length) := by
  induction rows with
  | nil =>
    intro idx rc ec acc
    simp [importRows]
  | cons r rest ih =>
    intro idx rc ec acc
    by_cases hcap : capReached row_limit rc
    · simp [importRows, hcap]
    · by_cases hok : rowOk idx
      · have h := ih (idx + 1) (rc + 1) ec (processRow schemaLen r :: acc)
        simp only [List.length_cons] at h
        simp only [importRows, hcap, hok, if_false, if_true, Bool.false_eq_true,
          ite_false, ite_true, List.length_cons]
        constructor <;> omega
      · have h := ih (idx + 1) rc (ec + 1) acc
        simp only [importRows, hcap, hok, if_false, Bool.false_eq_true,
          ite_false, ite_true, List.length_cons]
        constructor <;> omega

/-- C1: for every schema length, row oracle, row cap and row sequence,
the number of rows in the loaded table equals the number of input data
rows minus the rows skipped with an error minus the rows dropped by an
active cap; in particular with a cap of 5 and 10 available rows exactly 5
rows are loaded, and the committed destination table of the corresponding
export holds exactly those 5 rows. -/
theorem c1_rows_loaded_accounting (row_limit : Option Nat) (schemaLen : Nat)
    (rowOk : Nat → Bool) (rows : List (List Str)) :
    ((importRows row_limit schemaLen rowOk rows 0 0 0 []).table.length
      = rows.length
        - (importRows row_limit schemaLen rowOk rows 0 0 0 []).errorCount
        - (importRows row_limit schemaLen rowOk rows 0 0 0 []).droppedCount)
    ∧ ((importRows row_limit schemaLen rowOk rows 0 0 0 []).rowCount
      = (importRows row_limit schemaLen rowOk rows 0 0 0 []).table.length)
    ∧ (importRows (some 5) 1 (fun _ => true)
        (List.replicate 10 ["x".toList]) 0 0 0 []).rowCount = 5
    ∧ (importRows (some 5) 1 (fun _ => true)
        (List.replicate 10 ["x".toList]) 0 0 0 []).errorCount = 0
    ∧ (importRows (some 5) 1 (fun _ => true)
        (List.replicate 10 ["x".toList]) 0 0 0 []).droppedCount = 5
    ∧ getT (exportTableRun (some 5) none [] capInput).1 ("t".toList)
      = some (Entry.base [("name".toList, "TEXT".toList)]
          (List.replicate 5 [some ("x".toList)])) := by
  obtain ⟨h1, h2⟩ := importRows_accounting row_limit schemaLen rowOk rows 0 0 0 []
  simp only [List.length_nil] at h1 h2
  exact ⟨by omega, by omega, by decide, by decide, by decide, by decide⟩

/-- C2: field normalization maps the empty string and any case variant of
the literal NULL to a null value, maps a field of only whitespace to null,
and every other field whose cleaned form is nonempty is stored as its
value with null bytes removed and surrounding whitespace trimmed; in
particular a field of two spaces around foo is stored as foo. -/
theorem c2_field_normalization (val : Str) :
    (val = [] → processValue val = none)
    ∧ (upperL val = ("NULL".toList) → processValue val = none)
    ∧ (val.all Char.isWhitespace = true → processValue val = none)
    ∧ (upperL val ≠ ("NULL".toList) →
        stripL (val.filter (fun c => !(c == nullChar))) ≠ [] →
        processValue val
          = some (stripL (val.filter (fun c => !(c == nullChar)))))
    ∧ processValue ("  foo  ".toList) = some ("foo".toList) := by
  refine ⟨?_, ?_, ?_, ?_, by decide⟩
  · intro h
    unfold processValue
    rw [if_pos (Or.inl h)]
  · intro h
    unfold processValue
    rw [if_pos (Or.inr h)]
  · intro h
    by_cases h0 : val = [] ∨ upperL val = ("NULL".toList)
    · unfold processValue
      rw [if_pos h0]
    · have hall : ∀ c ∈ val, Char.isWhitespace c = true := List.all_eq_true.mp h
      have hfilter : val.filter (fun c => !(c == nullChar)) = val := by
        refine List.filter_eq_self.mpr (fun c hc => ?_)
        have hw := hall c hc
        have hcn : c ≠ nullChar := by
          intro hcn
          rw [hcn] at hw
          exact absurd hw (by decide)
        simp [hcn]
      have hstrip : stripL val = [] := by
        unfold stripL
        rw [List.dropWhile_eq_nil_iff.mpr hall]
        simp
      unfold processValue
      rw [if_neg h0, hfilter, hstrip, if_pos rfl]
  · intro h1 h2
    have hne : ¬(val = [] ∨ upperL val = ("NULL".toList)) := by
      rintro (rfl | hu)
      · exact h2 rfl
      · exact h1 hu
    unfold processValue
    rw [if_neg hne, if_neg h2]

theorem c2_field_normalization_witness :
    processValue (" x ".toList) = some ("x".toList) := by
  have h := (c2_field_normalization (" x ".toList)).2.2.2.1 (by decide) (by decide)
  rw [h]
  decide

/-- C10: a raw field whose content is the literal NULL in any case but
surrounded by whitespace is not compared equal to NULL (the comparison
happens before trimming), so the trimmed string is stored rather than a
null value. -/
theorem c10_padded_null_literal_kept (val : Str)
    (h1 : upperL val ≠ ("NULL".toList))
    (h2 : upperL (stripL (val.filter (fun c => !(c == nullChar))))
      = ("NULL".toList)) :
    processValue val = some (stripL (val.filter (fun c => !(c == nullChar)))) := by
  have hcle : stripL (val.filter (fun c => !(c == nullChar))) ≠ [] := by
    intro h
    rw [h] at h2
    exact absurd h2 (by decide)
  have hne : ¬(val = [] ∨ upperL val = ("NULL".toList)) := by
    rintro (rfl | hu)
    · exact hcle rfl
    · exact h1 hu
  unfold processValue
  rw [if_neg hne, if_neg hcle]

theorem c10_padded_null_literal_kept_witness :
    processValue (" NULL ".toList) = some ("NULL".toList) := by
  rw [c10_padded_null_literal_kept (" NULL ".toList) (by decide) (by decide)]
  decide

/-- Membership in a stripped list implies membership in the original. -/
theorem mem_of_mem_stripL {c : Char} {s : Str} (h : c ∈ stripL s) : c ∈ s := by
  unfold stripL at h
  rw [List.mem_reverse] at h
  have h2 := (List.dropWhile_sublist Char.isWhitespace).subset h
  rw [List.mem_reverse] at h2
  exact (List.dropWhile_sublist Char.isWhitespace).subset h2

/-- C3 counterexample: the allowed set into which declared types are
coerced has five members (INTEGER, TEXT, REAL, BLOB, NUMERIC), all
pairwise distinct and all kept unchanged by the coercion, so it is not a
four-way set: NUMERIC is a fifth accepted type. -/
theorem c3_allowed_set_is_five_way :
    allowedTypes.length = 5
    ∧ allowedTypes.Nodup
    ∧ allowedTypes.map sanitizeType = allowedTypes
    ∧ sanitizeType ("NUMERIC".toList) = ("NUMERIC".toList)
    ∧ sanitizeType ("NUMERIC".toList) ≠ ("TEXT".toList) := by
  exact ⟨by decide, by decide, by decide, by decide, by decide⟩

/-- C3 amended: every destination column is the schema entry with its
name stripped of quote and apostrophe characters and its declared type
coerced into the five-way allowed set, every unrecognized type becoming
TEXT; the CREATE TABLE statement of a load carries exactly this sanitized
schema. -/
theorem c3_schema_sanitization (schema : List (Str × Str)) (k : Nat)
    (nm ty : Str) (hk : schema[k]? = some (nm, ty)) :
    ((sanitizeSchema schema)[k]? = some (sanitizeName nm, sanitizeType ty))
    ∧ (∀ c ∈ sanitizeName nm, c ≠ quoteChar ∧ c ≠ aposChar)
    ∧ sanitizeType ty ∈ allowedTypes
    ∧ (ty ∉ allowedTypes → sanitizeType ty = ("TEXT".toList))
    ∧ (ty ∈ allowedTypes → sanitizeType ty = ty)
    ∧ (∀ (row_limit : Option Nat) (ftsSel : Option (List Str))
        (i : TableInput) (rows : List (List Str)),
        i.rawSchema ≠ [] → i.csv = some rows → i.createOk = true →
        Event.createTable i.name (sanitizeSchema i.rawSchema)
          ∈ (exportTableEvents row_limit ftsSel i).1) := by
  refine ⟨?_, ?_, ?_, ?_, ?_, ?_⟩
  · simp [sanitizeSchema, List.getElem?_map, hk]
  · intro c hc
    have hmem := mem_of_mem_stripL hc
    have hp := List.of_mem_filter hmem
    simp only [Bool.and_eq_true, Bool.not_eq_true', beq_eq_false_iff_ne] at hp
    exact hp
  · unfold sanitizeType
    split
    · assumption
    · decide
  · intro h
    unfold sanitizeType
    rw [if_neg h]
  · intro h
    unfold sanitizeType
    rw [if_pos h]
  · intro row_limit ftsSel i rows hs hc hco
    have hco2 : ¬(i.createOk = false) := by
      rw [hco]
      decide
    simp only [exportTableEvents, if_neg hs, hc, if_neg hco2]
    split
    · split
      · simp
      · simp
    · simp

theorem c3_schema_sanitization_witness :
    (sanitizeSchema [(" a\"b ".toList, "VARCHAR".toList)])[0]?
      = some ("ab".toList, "TEXT".toList) := by
  have h := (c3_schema_sanitization [(" a\"b ".toList, "VARCHAR".toList)] 0
    (" a\"b ".toList) ("VARCHAR".toList) (by decide)).1
  rw [h]
  decide

/-- C4: under the all policy the resolved index column set is exactly the
columns whose declared type contains TEXT, VARCHAR or CHAR
case-insensitively; on the example schema the resolved set is exactly
name and bio; and when the resolved set is empty no FTS5 statement is
issued at all. -/
theorem c4_fts_all_policy (schema : List (Str × Str)) (nm : Str) :
    (nm ∈ resolveTextColumns schema
      ↔ ∃ ty, (nm, ty) ∈ schema ∧ textLike ty = true)
    ∧ resolveFtsColumns schema ["all".toList] = resolveTextColumns schema
    ∧ resolveTextColumns
        [("id".toList, "INTEGER".toList),
         ("name".toList, "TEXT".toList),
         ("bio".toList, "VARCHAR".toList)] = ["name".toList, "bio".toList]
    ∧ (∀ tn, resolveTextColumns schema = [] →
        createFts5Events tn schema ["all".toList] = []) := by
  refine ⟨?_, ?_, by decide, ?_⟩
  · constructor
    · intro h
      obtain ⟨col, hmem, hfst⟩ := List.mem_map.mp h
      obtain ⟨hin, hlike⟩ := List.mem_filter.mp hmem
      exact ⟨col.2, by rw [← hfst]; exact hin, hlike⟩
    · rintro ⟨ty, hin, hlike⟩
      exact List.mem_map.mpr
        ⟨(nm, ty), List.mem_filter.mpr ⟨hin, hlike⟩, rfl⟩
  · unfold resolveFtsColumns
    rw [if_pos rfl]
  · intro tn h
    unfold createFts5Events resolveFtsColumns
    rw [if_pos rfl, h, if_pos rfl]

theorem c4_fts_all_policy_witness :
    ("name".toList)
      ∈ resolveTextColumns
        [("id".toList, "INTEGER".toList),
         ("name".toList, "TEXT".toList),
         ("bio".toList, "VARCHAR".toList)]
    ∧ createFts5Events ("t".toList) [("id".toList, "INTEGER".toList)]
        ["all".toList] = [] := by
  constructor
  · exact (c4_fts_all_policy
      [("id".toList, "INTEGER".toList),
       ("name".toList, "TEXT".toList),
       ("bio".toList, "VARCHAR".toList)] ("name".toList)).1.mpr
      ⟨("TEXT".toList), by decide, by decide⟩
  · exact (c4_fts_all_policy [("id".toList, "INTEGER".toList)]
      ("x".toList)).2.2.2 ("t".toList) (by decide)

theorem stepTx_committed (s : TxState) (e : Event) (h : e ≠ Event.commit) :
    (stepTx s e).committed = s.committed := by
  cases e <;> first | rfl | exact absurd rfl h

/-- Without a commit statement the committed contents of the file never
change, whatever else the trace does. -/
theorem foldl_stepTx_committed (evs : List Event) :
    ∀ s : TxState, Event.commit ∉ evs →
      (evs.foldl stepTx s).committed = s.committed := by
  induction evs with
  | nil =>
    intro s _
    rfl
  | cons e rest ih =>
    intro s h
    rw [List.foldl_cons,
      ih _ (fun hh => h (List.mem_cons_of_mem e hh)),
      stepTx_committed s e
        (fun hh => h (by rw [← hh]; exact List.mem_cons_self e rest))]

theorem committed_of_no_commit (db : DB) (evs : List Event)
    (h : Event.commit ∉ evs) : (runTrace db evs).committed = db :=
  foldl_stepTx_committed evs ⟨db, db⟩ h

/-- Concrete input whose table creation statement fails. -/
def failInput : TableInput :=
  { name := "t".toList
    schemaRaises := false
    rawSchema := [("name".toList, "TEXT".toList)]
    csv := some [["x".toList]]
    rowOk := fun _ => true
    createOk := false
    ftsOk := true }

/-- C5: when an exception occurs during the create/insert/index sequence
of a table load (a failing CREATE, or a failing FTS5 sequence when one is
attempted) the connection is rolled back: the destination store is left
exactly as it was before the load started, and the table is reported as
failed. -/
theorem c5_rollback_on_failure (row_limit : Option Nat)
    (ftsSel : Option (List Str)) (db : DB) (i : TableInput)
    (rows : List (List Str)) (sel : List Str)
    (hs : i.rawSchema ≠ []) (hc : i.csv = some rows)
    (hexc : i.createOk = false
      ∨ (ftsSel = some sel ∧ sel ≠ []
          ∧ 0 < (importRows row_limit (sanitizeSchema i.rawSchema).length
              i.rowOk rows 0 0 0 []).rowCount
          ∧ createFts5Events i.name (sanitizeSchema i.rawSchema) sel ≠ []
          ∧ i.ftsOk = false)) :
    exportTableRun row_limit ftsSel db i = (db, Report.loadFail) := by
  by_cases hcr : i.createOk = false
  · have hev : exportTableEvents row_limit ftsSel i
        = ([Event.rollback], Report.loadFail) := by
      simp only [exportTableEvents, hc]
      rw [if_neg hs, if_pos hcr]
    unfold exportTableRun
    rw [hev]
    refine Prod.ext ?_ rfl
    exact committed_of_no_commit db [Event.rollback] (by simp)
  · rcases hexc with hexc | ⟨hsel, hne, hrc, hfe, hfok⟩
    · exact absurd hexc hcr
    · have hev : exportTableEvents row_limit ftsSel i
          = ([Event.dropTable i.name,
              Event.createTable i.name (sanitizeSchema i.rawSchema)]
              ++ (importRows row_limit (sanitizeSchema i.rawSchema).length
                  i.rowOk rows 0 0 0 []).table.map
                    (fun r => Event.insert i.name r)
              ++ [Event.rollback], Report.loadFail) := by
        simp only [exportTableEvents, hc, hsel, Option.getD_some]
        rw [if_neg hs, if_neg hcr]
        have hcond : (decide (sel ≠ []) && decide
            ((importRows row_limit (sanitizeSchema i.rawSchema).length
              i.rowOk rows 0 0 0 []).rowCount > 0)) = true := by
          simp only [Bool.and_eq_true, decide_eq_true_eq]
          exact ⟨hne, hrc⟩
        rw [if_pos hcond, if_pos ⟨hfe, hfok⟩]
      unfold exportTableRun
      rw [hev]
      refine Prod.ext ?_ rfl
      refine committed_of_no_commit db _ ?_
      simp [List.mem_append]

theorem c5_rollback_on_failure_witness :
    exportTableRun none none [("keep".toList, Entry.base [] [])] failInput
      = ([("keep".toList, Entry.base [] [])], Report.loadFail) :=
  c5_rollback_on_failure none none [("keep".toList, Entry.base [] [])]
    failInput [["x".toList]] [] (by decide) rfl (Or.inl rfl)

/-- Concrete input whose schema cannot be parsed. -/
def badSchemaInput : TableInput :=
  { name := "bad".toList
    schemaRaises := false
    rawSchema := []
    csv := none
    rowOk := fun _ => true
    createOk := true
    ftsOk := true }

/-- C6: the orchestrator gives every table of the list exactly one
report, and a table failing at the schema stage (the subprocess raising,
caught by convert, or an unparseable schema) leaves the store untouched
and the remaining tables are processed exactly as if the failing table
were absent. -/
theorem c6_per_table_isolation (row_limit : Option Nat)
    (ftsSel : Option (List Str)) :
    (∀ (db : DB) (ts : List TableInput),
      (convertTables row_limit ftsSel db ts).2.length = ts.length)
    ∧ (∀ (db : DB) (t : TableInput) (rest : List TableInput),
        t.schemaRaises = true ∨ t.rawSchema = [] →
        convertTables row_limit ftsSel db (t :: rest)
          = ((convertTables row_limit ftsSel db rest).1,
             (if t.schemaRaises then Report.raisedCaught else Report.schemaFail)
               :: (convertTables row_limit ftsSel db rest).2)) := by
  constructor
  · intro db ts
    induction ts generalizing db with
    | nil => rfl
    | cons t rest ih =>
      simp only [convertTables, List.length_cons]
      rw [ih]
  · intro db t rest h
    by_cases hr : t.schemaRaises = true
    · simp [convertTables, exportTableExc, hr]
    · rcases h with h | h
      · exact absurd h hr
      · have hrun : exportTableRun row_limit ftsSel db t
            = (db, Report.schemaFail) := by
          unfold exportTableRun
          rw [show exportTableEvents row_limit ftsSel t
              = ([], Report.schemaFail) by
            unfold exportTableEvents
            rw [if_pos h]]
          rfl
        simp [convertTables, exportTableExc, hr, hrun]

theorem c6_per_table_isolation_witness :
    convertTables none none [] [badSchemaInput, capInput]
      = ((convertTables none none [] [capInput]).1,
         Report.schemaFail :: (convertTables none none [] [capInput]).2)
    ∧ (convertTables none none [] [badSchemaInput, capInput]).2.length = 2
    ∧ getT (convertTables none none [] [badSchemaInput, capInput]).1 ("t".toList)
      = some (Entry.base [("name".toList, "TEXT".toList)]
          (List.replicate 10 [some ("x".toList)])) := by
  refine ⟨?_, ?_, by decide⟩
  · have h := (c6_per_table_isolation none none).2 [] badSchemaInput [capInput]
      (Or.inr rfl)
    simpa using h
  · exact (c6_per_table_isolation none none).1 [] [badSchemaInput, capInput]

/-- C7: when setup succeeds (input file present, mdbtools present) and
the final size report does not raise, main exits 0 whatever per-table or
per-row failures the table list produced, and a non-zero exit happens
only when the input file is missing, mdbtools is missing, or the final
top-level step raises. -/
theorem c7_exit_status (row_limit : Option Nat) (ftsSel : Option (List Str))
    (db : DB) (tables : List TableInput)
    (inputExists mdbtoolsOk listMode finalLogOk : Bool) :
    (inputExists = true → mdbtoolsOk = true → finalLogOk = true →
      mainExit inputExists mdbtoolsOk listMode row_limit ftsSel db tables
        finalLogOk = 0)
    ∧ (mainExit inputExists mdbtoolsOk listMode row_limit ftsSel db tables
        finalLogOk ≠ 0 →
      inputExists = false ∨ mdbtoolsOk = false ∨ finalLogOk = false) := by
  constructor
  · intro h1 h2 h3
    cases listMode <;> simp [mainExit, h1, h2, h3]
  · intro h
    by_cases h1 : inputExists = false
    · exact Or.inl h1
    · by_cases h2 : mdbtoolsOk = false
      · exact Or.inr (Or.inl h2)
      · by_cases h3 : finalLogOk = false
        · exact Or.inr (Or.inr h3)
        · exfalso
          apply h
          simp only [Bool.not_eq_false] at h1 h2 h3
          cases listMode <;> simp [mainExit, h1, h2, h3]

theorem c7_exit_status_witness :
    mainExit true true false none none [] [badSchemaInput, failInput] true
      = 0 :=
  (c7_exit_status none none [] [badSchemaInput, failInput]
    true true false true).1 rfl rfl rfl

/-- Concrete input for a fully successful one-row export with an FTS5
index over the single TEXT column. -/
def ftsInput : TableInput :=
  { name := "t".toList
    schemaRaises := false
    rawSchema := [("name".toList, "TEXT".toList)]
    csv := some [["hello".toList]]
    rowOk := fun _ => true
    createOk := true
    ftsOk := true }

/-- C9 counterexample: on a successful one-row export with an index, the
rebuild directive is issued exactly once (trace position 5) but the
single commit only comes after it (position 6); at the moment the rebuild
is issued nothing at all has been committed, in particular none of the
rows of the table: the rebuild is not issued after the rows are
committed. -/
theorem c9_rebuild_precedes_commit :
    ((exportTableEvents none (some ["all".toList]) ftsInput).1.countP
        (fun e => decide (e = Event.rebuild ("t_fts".toList))) = 1)
    ∧ (exportTableEvents none (some ["all".toList]) ftsInput).1[5]?
      = some (Event.rebuild ("t_fts".toList))
    ∧ (exportTableEvents none (some ["all".toList]) ftsInput).1[6]?
      = some Event.commit
    ∧ (runTrace []
        ((exportTableEvents none (some ["all".toList]) ftsInput).1.take 5)).committed
      = []
    ∧ getT (runTrace []
        ((exportTableEvents none (some ["all".toList]) ftsInput).1.take 5)).committed
        ("t".toList) = none
    ∧ getT (runTrace []
        (exportTableEvents none (some ["all".toList]) ftsInput).1).committed
        ("t".toList)
      = some (Entry.base [("name".toList, "TEXT".toList)]
          [[some ("hello".toList)]]) :=
  ⟨by decide, by decide, by decide, by decide, by decide, by decide⟩

/-- C9 amended: for every successful table load that builds an index, the
statement trace is a prefix holding the drop, the create and all the row
inserts, followed by exactly the FTS5 drop, the FTS5 create, one rebuild
directive and the single commit: the rebuild is issued exactly once per
table, after every row insert, inside the transaction immediately before
the commit, and never incrementally per row. -/
theorem c9_rebuild_once_after_inserts (row_limit : Option Nat)
    (ftsSel : Option (List Str)) (i : TableInput)
    (rows : List (List Str)) (sel : List Str)
    (hs : i.rawSchema ≠ []) (hc : i.csv = some rows)
    (hcr : i.createOk = true) (hfok : i.ftsOk = true)
    (hsel : ftsSel = some sel) (hne : sel ≠ [])
    (hrc : 0 < (importRows row_limit (sanitizeSchema i.rawSchema).length
        i.rowOk rows 0 0 0 []).rowCount)
    (hcols : resolveFtsColumns (sanitizeSchema i.rawSchema) sel ≠ []) :
    ∃ pre cols,
      (exportTableEvents row_limit ftsSel i).1
        = pre ++ [Event.dropTable (ftsName i.name),
                  Event.createFts (ftsName i.name) cols,
                  Event.rebuild (ftsName i.name),
                  Event.commit]
      ∧ (∀ e ∈ pre, ∀ m, e ≠ Event.rebuild m)
      ∧ (∀ e ∈ (exportTableEvents row_limit ftsSel i).1,
          (∃ n r, e = Event.insert n r) → e ∈ pre)
      ∧ (exportTableEvents row_limit ftsSel i).1.countP
          (fun e => decide (e = Event.rebuild (ftsName i.name))) = 1 := by
  have hcr2 : ¬(i.createOk = false) := by
    rw [hcr]
    decide
  have hfts : createFts5Events i.name (sanitizeSchema i.rawSchema) sel
      = [Event.dropTable (ftsName i.name),
         Event.createFts (ftsName i.name)
           (resolveFtsColumns (sanitizeSchema i.rawSchema) sel),
         Event.rebuild (ftsName i.name)] := by
    unfold createFts5Events
    rw [if_neg hcols]
  have hnofail : ¬(createFts5Events i.name (sanitizeSchema i.rawSchema) sel ≠ []
      ∧ i.ftsOk = false) := by
    rintro ⟨_, h2⟩
    rw [hfok] at h2
    exact absurd h2 (by decide)
  have hcond : (decide (sel ≠ []) && decide
      ((importRows row_limit (sanitizeSchema i.rawSchema).length
        i.rowOk rows 0 0 0 []).rowCount > 0)) = true := by
    simp only [Bool.and_eq_true, decide_eq_true_eq]
    exact ⟨hne, hrc⟩
  have hev : (exportTableEvents row_limit ftsSel i).1
      = ([Event.dropTable i.name,
          Event.createTable i.name (sanitizeSchema i.rawSchema)]
          ++ (importRows row_limit (sanitizeSchema i.rawSchema).length
              i.rowOk rows 0 0 0 []).table.map (fun r => Event.insert i.name r))
        ++ [Event.dropTable (ftsName i.name),
            Event.createFts (ftsName i.name)
              (resolveFtsColumns (sanitizeSchema i.rawSchema) sel),
            Event.rebuild (ftsName i.name),
            Event.commit] := by
    simp only [exportTableEvents, hc, hsel, Option.getD_some]
    rw [if_neg hs, if_neg hcr2, if_pos hcond, if_neg hnofail, hfts]
    simp [List.append_assoc]
  refine ⟨_, _, hev, ?_, ?_, ?_⟩
  · intro e he m
    rcases List.mem_append.mp he with he | he
    · simp only [List.mem_cons, List.not_mem_nil, or_false] at he
      rcases he with rfl | rfl
      · simp
      · simp
    · obtain ⟨r, _, rfl⟩ := List.mem_map.mp he
      simp
  · intro e he hins
    obtain ⟨n, r, rfl⟩ := hins
    rw [hev] at he
    rcases List.mem_append.mp he with he | he
    · exact he
    · simp at he
  · rw [hev, List.countP_append]
    have h0 : ([Event.dropTable i.name,
        Event.createTable i.name (sanitizeSchema i.rawSchema)]
        ++ (importRows row_limit (sanitizeSchema i.rawSchema).length
            i.rowOk rows 0 0 0 []).table.map
              (fun r => Event.insert i.name r)).countP
          (fun e => decide (e = Event.rebuild (ftsName i.name))) = 0 := by
      rw [List.countP_eq_zero]
      intro a ha
      simp only [decide_eq_true_eq]
      rcases List.mem_append.mp ha with ha | ha
      · simp only [List.mem_cons, List.not_mem_nil, or_false] at ha
        rcases ha with rfl | rfl
        · simp
        · simp
      · obtain ⟨r, _, rfl⟩ := List.mem_map.mp ha
        simp
    rw [h0]
    simp [List.countP_cons]

theorem c9_rebuild_once_after_inserts_witness :
    ∃ pre cols,
      (exportTableEvents none (some ["all".toList]) ftsInput).1
        = pre ++ [Event.dropTable (ftsName ("t".toList)),
                  Event.createFts (ftsName ("t".toList)) cols,
                  Event.rebuild (ftsName ("t".toList)),
                  Event.commit]
      ∧ (∀ e ∈ pre, ∀ m, e ≠ Event.rebuild m)
      ∧ (∀ e ∈ (exportTableEvents none (some ["all".toList]) ftsInput).1,
          (∃ n r, e = Event.insert n r) → e ∈ pre)
      ∧ (exportTableEvents none (some ["all".toList]) ftsInput).1.countP
          (fun e => decide (e = Event.rebuild (ftsName ("t".toList)))) = 1 :=
  c9_rebuild_once_after_inserts none (some ["all".toList]) ftsInput
    [["hello".toList]] ["all".toList] (by decide) rfl rfl rfl rfl
    (by decide) (by decide) (by decide)

theorem getT_nil (m : Str) : getT [] m = none := rfl

theorem getT_cons (p : Str × Entry) (db : DB) (m : Str) :
    getT (p :: db) m = if p.1 = m then some p.2 else getT db m := by
  by_cases h : p.1 = m
  · simp [getT, List.find?_cons, h]
  · simp [getT, List.find?_cons, h]

theorem getT_append_of_some (d1 d2 : DB) (m : Str) (e : Entry)
    (h : getT d1 m = some e) : getT (d1 ++ d2) m = some e := by
  induction d1 with
  | nil => rw [getT_nil] at h; exact absurd h (by simp)
  | cons p d1 ih =>
    rw [List.cons_append, getT_cons]
    rw [getT_cons] at h
    by_cases hp : p.1 = m
    · rw [if_pos hp] at h ⊢
      exact h
    · rw [if_neg hp] at h ⊢
      exact ih h

theorem getT_append_of_none (d1 d2 : DB) (m : Str)
    (h : getT d1 m = none) : getT (d1 ++ d2) m = getT d2 m := by
  induction d1 with
  | nil => rfl
  | cons p d1 ih =>
    rw [List.cons_append, getT_cons]
    rw [getT_cons] at h
    by_cases hp : p.1 = m
    · rw [if_pos hp] at h
      exact absurd h (by simp)
    · rw [if_neg hp] at h
      rw [if_neg hp]
      exact ih h

theorem getT_dropT (db : DB) (n m : Str) :
    getT (dropT db n) m = if m = n then none else getT db m := by
  induction db with
  | nil =>
    by_cases h : m = n <;> simp [dropT, getT, h]
  | cons p db ih =>
    by_cases hp : p.1 = n
    · have hdp : dropT (p :: db) n = dropT db n := by
        simp [dropT, List.filter_cons, hp]
      rw [hdp, ih, getT_cons]
      by_cases hm : m = n
      · simp [hm]
      · have hpm : p.1 ≠ m := by
          rw [hp]
          exact fun hh => hm hh.symm
        simp [hm, hpm]
    · have hdp : dropT (p :: db) n = p :: dropT db n := by
        simp [dropT, List.filter_cons, hp]
      rw [hdp, getT_cons, getT_cons, ih]
      by_cases hm : m = n
      · have hpm : p.1 ≠ m := fun hh => hp (by rw [hh, hm])
        simp [hm, hpm, hp]
      · simp [hm]

theorem getT_setT (db : DB) (n : Str) (e : Entry) (m : Str) :
    getT (setT db n e) m = if m = n then some e else getT db m := by
  unfold setT
  by_cases hm : m = n
  · subst hm
    have h1 : getT (dropT db m) m = none := by
      rw [getT_dropT, if_pos rfl]
    rw [getT_append_of_none _ _ _ h1, getT_cons]
    simp
  · cases hg : getT (dropT db n) m with
    | some v =>
      rw [getT_append_of_some _ _ _ _ hg]
      rw [getT_dropT, if_neg hm] at hg
      rw [if_neg hm, hg]
    | none =>
      rw [getT_append_of_none _ _ _ hg]
      rw [getT_dropT, if_neg hm] at hg
      rw [getT_cons, if_neg (fun hh => hm hh.symm), getT_nil, if_neg hm, hg]

theorem ftsName_ne (n : Str) : ftsName n ≠ n := by
  intro h
  have hlen := congrArg List.length h
  simp [ftsName] at hlen

/-- Inside a transaction (no commit, no rollback yet) the statements act
on the pending state only. -/
theorem foldl_stepTx_plain (body : List Event) :
    ∀ (c p : DB), (∀ e ∈ body, e ≠ Event.commit ∧ e ≠ Event.rollback) →
      body.foldl stepTx ⟨c, p⟩ = ⟨c, body.foldl applyEvent p⟩ := by
  induction body with
  | nil =>
    intro c p _
    rfl
  | cons e rest ih =>
    intro c p h
    have he := h e (List.mem_cons_self e rest)
    have hstep : stepTx ⟨c, p⟩ e = ⟨c, applyEvent p e⟩ := by
      cases e <;>
        first
          | rfl
          | exact absurd rfl he.1
          | exact absurd rfl he.2
    rw [List.foldl_cons, hstep,
      ih _ _ (fun x hx => h x (List.mem_cons_of_mem e hx)), List.foldl_cons]

/-- A trace consisting of plain statements followed by one commit
publishes exactly the fold of those statements over the initial state. -/
theorem runTrace_body_commit (db : DB) (body : List Event)
    (h : ∀ e ∈ body, e ≠ Event.commit ∧ e ≠ Event.rollback) :
    (runTrace db (body ++ [Event.commit])).committed
      = body.foldl applyEvent db := by
  unfold runTrace
  rw [List.foldl_append, foldl_stepTx_plain body db db h]
  rfl

/-- Folding the insert statements of a row list over a store holding the
freshly created table appends exactly those rows and touches nothing
else. -/
theorem getT_foldl_inserts (n : Str) (rows : List (List (Option Str))) :
    ∀ (db : DB) (sch : List (Str × Str)) (acc : List (List (Option Str))),
      getT db n = some (Entry.base sch acc) →
      (getT ((rows.map (fun r => Event.insert n r)).foldl applyEvent db) n
        = some (Entry.base sch (acc ++ rows)))
      ∧ (∀ m, m ≠ n →
          getT ((rows.map (fun r => Event.insert n r)).foldl applyEvent db) m
            = getT db m) := by
  induction rows with
  | nil =>
    intro db sch acc h
    constructor
    · simpa using h
    · intro m _
      rfl
  | cons r rows ih =>
    intro db sch acc h
    rw [List.map_cons, List.foldl_cons]
    have happ : applyEvent db (Event.insert n r)
        = setT db n (Entry.base sch (acc ++ [r])) := by
      simp only [applyEvent, h]
    rw [happ]
    have hget : getT (setT db n (Entry.base sch (acc ++ [r]))) n
        = some (Entry.base sch (acc ++ [r])) := by
      rw [getT_setT, if_pos rfl]
    obtain ⟨h1, h2⟩ := ih (setT db n (Entry.base sch (acc ++ [r]))) sch
      (acc ++ [r]) hget
    constructor
    · rw [h1]
      simp
    · intro m hm
      rw [h2 m hm, getT_setT, if_neg hm]

/-- Folding the three FTS5 statements over a store ends with the
populated index under the index name and touches nothing else. -/
theorem getT_foldl_fts (fn : Str) (cols : List Str) (db : DB) :
    (getT ([Event.dropTable fn, Event.createFts fn cols,
        Event.rebuild fn].foldl applyEvent db) fn
      = some (Entry.fts cols true))
    ∧ (∀ m, m ≠ fn →
        getT ([Event.dropTable fn, Event.createFts fn cols,
          Event.rebuild fn].foldl applyEvent db) m = getT db m) := by
  have h2 : getT (setT (dropT db fn) fn (Entry.fts cols false)) fn
      = some (Entry.fts cols false) := by
    rw [getT_setT, if_pos rfl]
  have h3 : ([Event.dropTable fn, Event.createFts fn cols,
      Event.rebuild fn].foldl applyEvent db)
      = setT (setT (dropT db fn) fn (Entry.fts cols false)) fn
          (Entry.fts cols true) := by
    simp only [List.foldl_cons, List.foldl_nil, applyEvent, h2]
  rw [h3]
  constructor
  · rw [getT_setT, if_pos rfl]
  · intro m hm
    rw [getT_setT, if_neg hm, getT_setT, if_neg hm, getT_dropT, if_neg hm]

/-- Lookup after the committed body of a load without FTS5 statements. -/
theorem commit_body_lookup_nofts (db : DB) (n : Str)
    (sch : List (Str × Str)) (tbl : List (List (Option Str))) (m : Str) :
    getT (([Event.dropTable n, Event.createTable n sch]
        ++ tbl.map (fun r => Event.insert n r)).foldl applyEvent db) m
      = if m = n then some (Entry.base sch tbl) else getT db m := by
  rw [List.foldl_append]
  have hset : ([Event.dropTable n, Event.createTable n sch].foldl
      applyEvent db) = setT (dropT db n) n (Entry.base sch []) := by
    simp only [List.foldl_cons, List.foldl_nil, applyEvent]
  rw [hset]
  have hget : getT (setT (dropT db n) n (Entry.base sch [])) n
      = some (Entry.base sch []) := by
    rw [getT_setT, if_pos rfl]
  obtain ⟨h1, h2⟩ := getT_foldl_inserts n tbl
    (setT (dropT db n) n (Entry.base sch [])) sch [] hget
  by_cases hm : m = n
  · subst hm
    rw [h1, if_pos rfl]
    simp
  · rw [h2 m hm, if_neg hm, getT_setT, if_neg hm, getT_dropT, if_neg hm]

/-- Lookup after the committed body of a load followed by the FTS5
statements. -/
theorem commit_body_lookup_fts (db : DB) (n : Str)
    (sch : List (Str × Str)) (tbl : List (List (Option Str)))
    (cols : List Str) (m : Str) :
    getT ((([Event.dropTable n, Event.createTable n sch]
        ++ tbl.map (fun r => Event.insert n r))
        ++ [Event.dropTable (ftsName n), Event.createFts (ftsName n) cols,
            Event.rebuild (ftsName n)]).foldl applyEvent db) m
      = if m = ftsName n then some (Entry.fts cols true)
        else if m = n then some (Entry.base sch tbl) else getT db m := by
  rw [List.foldl_append]
  obtain ⟨g1, g2⟩ := getT_foldl_fts (ftsName n) cols
    (([Event.dropTable n, Event.createTable n sch]
      ++ tbl.map (fun r => Event.insert n r)).foldl applyEvent db)
  by_cases hmf : m = ftsName n
  · subst hmf
    rw [g1, if_pos rfl]
  · rw [g2 m hmf, if_neg hmf, commit_body_lookup_nofts]

theorem exportRun_committed (row_limit : Option Nat)
    (ftsSel : Option (List Str)) (db : DB) (i : TableInput) :
    (exportTableRun row_limit ftsSel db i).1
      = (runTrace db (exportTableEvents row_limit ftsSel i).1).committed := rfl

/-- The statements of a load body are never transaction boundaries. -/
theorem load_body_plain (n : Str) (sch : List (Str × Str))
    (tbl : List (List (Option Str))) :
    ∀ e ∈ [Event.dropTable n, Event.createTable n sch]
        ++ tbl.map (fun r => Event.insert n r),
      e ≠ Event.commit ∧ e ≠ Event.rollback := by
  intro e he
  rcases List.mem_append.mp he with he | he
  · simp only [List.mem_cons, List.not_mem_nil, or_false] at he
    rcases he with rfl | rfl
    · simp
    · simp
  · obtain ⟨r, _, rfl⟩ := List.mem_map.mp he
    simp

/-- One table export, seen from a fixed name: either the lookup of that
name afterwards does not depend on the initial store at all, or the
export leaves that name untouched. -/
theorem exportRun_dichotomy (row_limit : Option Nat)
    (ftsSel : Option (List Str)) (i : TableInput) (m : Str) :
    (∀ db db' : DB,
      getT (exportTableRun row_limit ftsSel db i).1 m
        = getT (exportTableRun row_limit ftsSel db' i).1 m)
    ∨ (∀ db : DB,
        getT (exportTableRun row_limit ftsSel db i).1 m = getT db m) := by
  by_cases hs : i.rawSchema = []
  · right
    intro db
    have hev1 : (exportTableEvents row_limit ftsSel i).1 = [] := by
      unfold exportTableEvents
      rw [if_pos hs]
    rw [exportRun_committed, hev1]
    rfl
  · cases hcsv : i.csv with
    | none =>
      right
      intro db
      have hev1 : (exportTableEvents row_limit ftsSel i).1 = [] := by
        unfold exportTableEvents
        rw [if_neg hs, hcsv]
      rw [exportRun_committed, hev1]
      rfl
    | some rows =>
      by_cases hcr : i.createOk = false
      · right
        intro db
        have hev1 : (exportTableEvents row_limit ftsSel i).1
            = [Event.rollback] := by
          simp only [exportTableEvents, hcsv]
          rw [if_neg hs, if_pos hcr]
        rw [exportRun_committed, hev1,
          committed_of_no_commit db _ (by simp)]
      · cases ftsSel with
        | none =>
          have hev1 : (exportTableEvents row_limit none i).1
              = ([Event.dropTable i.name,
                  Event.createTable i.name (sanitizeSchema i.rawSchema)]
                  ++ (importRows row_limit (sanitizeSchema i.rawSchema).length
                      i.rowOk rows 0 0 0 []).table.map
                        (fun r => Event.insert i.name r))
                ++ [Event.commit] := by
            simp only [exportTableEvents, hcsv]
            rw [if_neg hs, if_neg hcr, if_neg (by simp)]
          have hlook : ∀ db : DB,
              getT (exportTableRun row_limit none db i).1 m
                = if m = i.name
                  then some (Entry.base (sanitizeSchema i.rawSchema)
                    (importRows row_limit (sanitizeSchema i.rawSchema).length
                      i.rowOk rows 0 0 0 []).table)
                  else getT db m := by
            intro db
            rw [exportRun_committed, hev1,
              runTrace_body_commit db _ (load_body_plain _ _ _),
              commit_body_lookup_nofts]
          by_cases hm : m = i.name
          · left
            intro db db'
            rw [hlook db, hlook db', if_pos hm, if_pos hm]
          · right
            intro db
            rw [hlook db, if_neg hm]
        | some sel =>
          cases hdo : (decide (sel ≠ []) && decide
              ((importRows row_limit (sanitizeSchema i.rawSchema).length
                i.rowOk rows 0 0 0 []).rowCount > 0)) with
          | false =>
            have hev1 : (exportTableEvents row_limit (some sel) i).1
                = ([Event.dropTable i.name,
                    Event.createTable i.name (sanitizeSchema i.rawSchema)]
                    ++ (importRows row_limit (sanitizeSchema i.rawSchema).length
                        i.rowOk rows 0 0 0 []).table.map
                          (fun r => Event.insert i.name r))
                  ++ [Event.commit] := by
              simp only [exportTableEvents, hcsv]
              rw [if_neg hs, if_neg hcr, if_neg (by rw [hdo]; decide)]
            have hlook : ∀ db : DB,
                getT (exportTableRun row_limit (some sel) db i).1 m
                  = if m = i.name
                    then some (Entry.base (sanitizeSchema i.rawSchema)
                      (importRows row_limit (sanitizeSchema i.rawSchema).length
                        i.rowOk rows 0 0 0 []).table)
                    else getT db m := by
              intro db
              rw [exportRun_committed, hev1,
                runTrace_body_commit db _ (load_body_plain _ _ _),
                commit_body_lookup_nofts]
            by_cases hm : m = i.name
            · left
              intro db db'
              rw [hlook db, hlook db', if_pos hm, if_pos hm]
            · right
              intro db
              rw [hlook db, if_neg hm]
          | true =>
            by_cases hff : (createFts5Events i.name
                (sanitizeSchema i.rawSchema) sel ≠ [] ∧ i.ftsOk = false)
            · right
              intro db
              have hev1 : (exportTableEvents row_limit (some sel) i).1
                  = ([Event.dropTable i.name,
                      Event.createTable i.name (sanitizeSchema i.rawSchema)]
                      ++ (importRows row_limit
                          (sanitizeSchema i.rawSchema).length
                          i.rowOk rows 0 0 0 []).table.map
                            (fun r => Event.insert i.name r))
                    ++ [Event.rollback] := by
                simp only [exportTableEvents, hcsv, Option.getD_some]
                rw [if_neg hs, if_neg hcr, if_pos hdo, if_pos hff]
              rw [exportRun_committed, hev1, committed_of_no_commit db _ ?_]
              intro hmem
              rcases List.mem_append.mp hmem with hmem | hmem
              · exact absurd hmem
                  (fun hh => (load_body_plain i.name
                    (sanitizeSchema i.rawSchema) _ _ hh).1 rfl)
              · simp at hmem
            · by_cases hcols : resolveFtsColumns
                  (sanitizeSchema i.rawSchema) sel = []
              · have hfe : createFts5Events i.name
                    (sanitizeSchema i.rawSchema) sel = [] := by
                  unfold createFts5Events
                  rw [if_pos hcols]
                have hev1 : (exportTableEvents row_limit (some sel) i).1
                    = ([Event.dropTable i.name,
                        Event.createTable i.name (sanitizeSchema i.rawSchema)]
                        ++ (importRows row_limit
                            (sanitizeSchema i.rawSchema).length
                            i.rowOk rows 0 0 0 []).table.map
                              (fun r => Event.insert i.name r))
                      ++ [Event.commit] := by
                  simp only [exportTableEvents, hcsv, Option.getD_some]
                  rw [if_neg hs, if_neg hcr, if_pos hdo, if_neg hff, hfe]
                  simp
                have hlook : ∀ db : DB,
                    getT (exportTableRun row_limit (some sel) db i).1 m
                      = if m = i.name
                        then some (Entry.base (sanitizeSchema i.rawSchema)
                          (importRows row_limit
                            (sanitizeSchema i.rawSchema).length
                            i.rowOk rows 0 0 0 []).table)
                        else getT db m := by
                  intro db
                  rw [exportRun_committed, hev1,
                    runTrace_body_commit db _ (load_body_plain _ _ _),
                    commit_body_lookup_nofts]
                by_cases hm : m = i.name
                · left
                  intro db db'
                  rw [hlook db, hlook db', if_pos hm, if_pos hm]
                · right
                  intro db
                  rw [hlook db, if_neg hm]
              · have hfe : createFts5Events i.name
                    (sanitizeSchema i.rawSchema) sel
                    = [Event.dropTable (ftsName i.name),
                       Event.createFts (ftsName i.name)
                         (resolveFtsColumns (sanitizeSchema i.rawSchema) sel),
                       Event.rebuild (ftsName i.name)] := by
                  unfold createFts5Events
                  rw [if_neg hcols]
                have hev1 : (exportTableEvents row_limit (some sel) i).1
                    = (([Event.dropTable i.name,
                        Event.createTable i.name (sanitizeSchema i.rawSchema)]
                        ++ (importRows row_limit
                            (sanitizeSchema i.rawSchema).length
                            i.rowOk rows 0 0 0 []).table.map
                              (fun r => Event.insert i.name r))
                        ++ [Event.dropTable (ftsName i.name),
                            Event.createFts (ftsName i.name)
                              (resolveFtsColumns
                                (sanitizeSchema i.rawSchema) sel),
                            Event.rebuild (ftsName i.name)])
                      ++ [Event.commit] := by
                  simp only [exportTableEvents, hcsv, Option.getD_some]
                  rw [if_neg hs, if_neg hcr, if_pos hdo, if_neg hff, hfe]
                have hplain : ∀ e ∈ (([Event.dropTable i.name,
                    Event.createTable i.name (sanitizeSchema i.rawSchema)]
                    ++ (importRows row_limit
                        (sanitizeSchema i.rawSchema).length
                        i.rowOk rows 0 0 0 []).table.map
                          (fun r => Event.insert i.name r))
                    ++ [Event.dropTable (ftsName i.name),
                        Event.createFts (ftsName i.name)
                          (resolveFtsColumns (sanitizeSchema i.rawSchema) sel),
                        Event.rebuild (ftsName i.name)]),
                    e ≠ Event.commit ∧ e ≠ Event.rollback := by
                  intro e he
                  rcases List.mem_append.mp he with he | he
                  · exact load_body_plain _ _ _ e he
                  · simp only [List.mem_cons, List.not_mem_nil,
                      or_false] at he
                    rcases he with rfl | rfl | rfl
                    · simp
                    · simp
                    · simp
                have hlook : ∀ db : DB,
                    getT (exportTableRun row_limit (some sel) db i).1 m
                      = if m = ftsName i.name
                        then some (Entry.fts
                          (resolveFtsColumns (sanitizeSchema i.rawSchema) sel)
                          true)
                        else if m = i.name
                          then some (Entry.base (sanitizeSchema i.rawSchema)
                            (importRows row_limit
                              (sanitizeSchema i.rawSchema).length
                              i.rowOk rows 0 0 0 []).table)
                          else getT db m := by
                  intro db
                  rw [exportRun_committed, hev1,
                    runTrace_body_commit db _ hplain,
                    commit_body_lookup_fts]
                by_cases hmf : m = ftsName i.name
                · left
                  intro db db'
                  rw [hlook db, hlook db', if_pos hmf, if_pos hmf]
                · by_cases hm : m = i.name
                  · left
                    intro db db'
                    rw [hlook db, hlook db', if_neg hmf, if_neg hmf,
                      if_pos hm, if_pos hm]
                  · right
                    intro db
                    rw [hlook db, if_neg hmf, if_neg hm]

/-- The whole conversion run, seen from a fixed name: either the lookup
afterwards is independent of the initial store, or the run leaves that
name untouched. -/
theorem convert_dichotomy (row_limit : Option Nat)
    (ftsSel : Option (List Str)) (ts : List TableInput) (m : Str) :
    (∀ db db' : DB,
      getT (convertTables row_limit ftsSel db ts).1 m
        = getT (convertTables row_limit ftsSel db' ts).1 m)
    ∨ (∀ db : DB,
        getT (convertTables row_limit ftsSel db ts).1 m = getT db m) := by
  induction ts with
  | nil =>
    right
    intro db
    rfl
  | cons t rest ih =>
    by_cases hr : t.schemaRaises = true
    · have hstep : ∀ db : DB,
          (convertTables row_limit ftsSel db (t :: rest)).1
            = (convertTables row_limit ftsSel db rest).1 := by
        intro db
        simp [convertTables, exportTableExc, hr]
      rcases ih with ih | ih
      · left
        intro db db'
        rw [hstep db, hstep db']
        exact ih db db'
      · right
        intro db
        rw [hstep db]
        exact ih db
    · have hstep : ∀ db : DB,
          (convertTables row_limit ftsSel db (t :: rest)).1
            = (convertTables row_limit ftsSel
                (exportTableRun row_limit ftsSel db t).1 rest).1 := by
        intro db
        simp [convertTables, exportTableExc, hr]
      rcases ih with ih | ih
      · left
        intro db db'
        rw [hstep db, hstep db']
        exact ih _ _
      · rcases exportRun_dichotomy row_limit ftsSel t m with hd | hd
        · left
          intro db db'
          rw [hstep db, hstep db', ih, ih]
          exact hd db db'
        · right
          intro db
          rw [hstep db, ih]
          exact hd db

/-- Schema of the destination table of a given name, as reported by the
store. -/
def tableSchemaOf (db : DB) (n : Str) : Option (List (Str × Str)) :=
  match getT db n with
  | some (Entry.base sch _) => some sch
  | _ => none

/-- Row count of the destination table of a given name. -/
def tableRowCountOf (db : DB) (n : Str) : Option Nat :=
  match getT db n with
  | some (Entry.base _ rows) => some rows.length
  | _ => none

/-- C8: running the conversion a second time with the same arguments over
the store produced by the first run changes nothing: every name resolves
to the same entry, so every destination table has the same schema and the
same row count as after a single run (the prior table and the prior index
are dropped before recreation). -/
theorem c8_second_run_is_identity (row_limit : Option Nat)
    (ftsSel : Option (List Str)) (db : DB) (ts : List TableInput) (m : Str) :
    (getT (convertTables row_limit ftsSel
        (convertTables row_limit ftsSel db ts).1 ts).1 m
      = getT (convertTables row_limit ftsSel db ts).1 m)
    ∧ (tableRowCountOf (convertTables row_limit ftsSel
        (convertTables row_limit ftsSel db ts).1 ts).1 m
      = tableRowCountOf (convertTables row_limit ftsSel db ts).1 m)
    ∧ (tableSchemaOf (convertTables row_limit ftsSel
        (convertTables row_limit ftsSel db ts).1 ts).1 m
      = tableSchemaOf (convertTables row_limit ftsSel db ts).1 m) := by
  have hmain : getT (convertTables row_limit ftsSel
      (convertTables row_limit ftsSel db ts).1 ts).1 m
      = getT (convertTables row_limit ftsSel db ts).1 m := by
    rcases convert_dichotomy row_limit ftsSel ts m with h | h
    · exact h _ db
    · rw [h ((convertTables row_limit ftsSel db ts).1)]
  refine ⟨hmain, ?_, ?_⟩
  · unfold tableRowCountOf
    rw [hmain]
  · unfold tableSchemaOf
    rw [hmain]

end SqliteSearch
